import Mathlib

/-!
Verification development for the quiz application's grading and
leaderboard-aggregation core (AnswerMatcher, ScoringEngine,
AttemptRecorder, LeaderboardAggregator).

The repository ships only the React frontend and the README under
version control here; the Django backend (`quiz/models.py`,
`quiz/views.py`, `quiz/signals.py`) that implements grading and
leaderboard aggregation is not present, so those components are
modelled from the specification (each such definition carries a
`Modelled from the spec:` doc comment).  The frontend timer and
submission logic (`QuizTake.js`) is embedded from the source.
Strings are modelled as `List Char` where character-level
normalization (trimming, case folding) matters, ints as `Int`/`Nat`,
and floating-point score percentages as exact rationals `ℚ`.
-/

namespace QuizApp

/-! ## Data model -/

/-- Modelled from the spec: a Choice of a MULTIPLE_CHOICE question has an
identifier, display text and an `is_correct` flag (README model; spec §3). -/
structure Choice where
  id : Nat
  choice_text : List Char
  is_correct : Bool
  deriving Repr, DecidableEq

/-- Modelled from the spec: the variant payload of a Question — either an
ordered sequence of Choices (MULTIPLE_CHOICE) or an answer key of accepted
literal alternatives with a `case_sensitive` flag (FILL_BLANK).  The
delimiter-packed `correct_blank_answer` string of the source is modelled as a
genuine list of alternatives, as the spec directs (§3, design note). -/
inductive QuestionBody where
  | multipleChoice (choices : List Choice)
  | fillBlank (alternatives : List (List Char)) (case_sensitive : Bool)
  deriving Repr, DecidableEq

/-- Modelled from the spec: a Question has an identifier, a positive point
value and a variant body (spec §3). -/
structure Question where
  id : Nat
  points : Nat
  body : QuestionBody
  deriving Repr, DecidableEq

/-- Modelled from the spec: a Quiz is an identifier plus an ordered sequence
of Questions (title/description/time limit are irrelevant to grading). -/
structure Quiz where
  id : Nat
  questions : List Question
  deriving Repr, DecidableEq

/-- Modelled from the spec: a SubmittedAnswer pairs a question id with a
payload — a chosen Choice identifier or a free-text string, mirroring the
frontend's `{question_id, choice_id?, text_answer?}` shape (QuizTake.js
`handleSubmit`, spec §6). -/
structure SubmittedAnswer where
  question_id : Nat
  choice_id : Option Nat
  text_answer : Option (List Char)
  deriving Repr, DecidableEq

/-- Modelled from the spec: the correctness verdict for one question,
keeping the original submission payload for review rendering (spec §3). -/
structure GradedAnswer where
  question_id : Nat
  is_correct : Bool
  choice_id : Option Nat
  text_answer : Option (List Char)
  deriving Repr, DecidableEq

/-- Modelled from the spec: the immutable output of the ScoringEngine —
per-answer verdicts, total score, total possible points, and the percentage
as an exact rational (spec §4.2, §6). -/
structure QuizAttemptResult where
  answers : List GradedAnswer
  score : Nat
  total_points : Nat
  percentage : ℚ
  deriving Repr, DecidableEq

/-! ## AnswerMatcher -/

/-- Whitespace test used by normalization. -/
def isWS (c : Char) : Bool := c.isWhitespace

/-- Modelled from the spec: trim leading and trailing whitespace from a
submitted string (spec §4.1, FILL_BLANK normalization). -/
def trimWS (s : List Char) : List Char :=
  ((s.dropWhile isWS).reverse.dropWhile isWS).reverse

/-- Modelled from the spec: fold a string to a common case (lower case) for
case-insensitive comparison (spec §4.1). -/
def foldCase (s : List Char) : List Char := s.map Char.toLower

/-- Modelled from the spec: normalization applied to one accepted
alternative of a FILL_BLANK answer key — case folding when the question is
case-insensitive, identity otherwise (alternatives are not trimmed; only the
submission is, spec §4.1). -/
def normAlt (case_sensitive : Bool) (a : List Char) : List Char :=
  if case_sensitive then a else foldCase a

/-- Modelled from the spec: FILL_BLANK matching — trim the submission, fold
case on both sides when `case_sensitive` is false, and accept iff the
normalized submission is nonempty and equals at least one normalized
alternative; an empty or whitespace-only submission is never correct, even
against an empty accepted alternative (spec §4.1). -/
def fillBlankMatches (alternatives : List (List Char)) (case_sensitive : Bool)
    (sub : List Char) : Bool :=
  let t := trimWS sub
  !t.isEmpty && (alternatives.map (normAlt case_sensitive)).contains
    (normAlt case_sensitive t)

/-- Modelled from the spec: MULTIPLE_CHOICE matching — a missing submission
is never correct; a submitted choice id is correct iff some choice of this
question carries that id and has `is_correct = true` (caller-supplied ids
referencing foreign choices are rejected, spec §4.1). -/
def mcMatches (choices : List Choice) (sub : Option Nat) : Bool :=
  match sub with
  | none => false
  | some cid => choices.any (fun c => c.id == cid && c.is_correct)

/-- Modelled from the spec: AnswerMatcher's `matches(question, payload)` —
dispatch on the question variant; a payload of the wrong kind (or absent)
is never correct (spec §4.1). -/
def answerMatches (q : Question) (a : SubmittedAnswer) : Bool :=
  match q.body with
  | .multipleChoice choices => mcMatches choices a.choice_id
  | .fillBlank alternatives cs =>
      match a.text_answer with
      | none => false
      | some t => fillBlankMatches alternatives cs t

/-! ## ScoringEngine -/

/-- Modelled from the spec: the first submission in the list referencing a
given question id, if any — duplicates beyond the first are ignored
(spec §4.2). -/
def firstSub (subs : List SubmittedAnswer) (qid : Nat) : Option SubmittedAnswer :=
  subs.find? (fun a => a.question_id == qid)

/-- Modelled from the spec: grade one question against the submission list —
an absent submission yields `is_correct = false` with no payload; a present
one is delegated to the AnswerMatcher (spec §4.2). -/
def gradeQuestion (subs : List SubmittedAnswer) (q : Question) : GradedAnswer :=
  match firstSub subs q.id with
  | none => ⟨q.id, false, none, none⟩
  | some a => ⟨q.id, answerMatches q a, a.choice_id, a.text_answer⟩

/-- Modelled from the spec: the points awarded for one question — its point
value iff the graded answer is correct, else 0 (spec §4.2). -/
def awarded (subs : List SubmittedAnswer) (q : Question) : Nat :=
  if (gradeQuestion subs q).is_correct then q.points else 0

/-- Modelled from the spec: ScoringEngine's `grade(quiz, submittedAnswers)` —
graded answers in quiz question order, `total_points` summed over every
question regardless of answer presence, `score` summed over awarded points,
and `percentage = score / total_points * 100` guarded to exactly 0 when
`total_points = 0` (spec §4.2). -/
def grade (quiz : Quiz) (subs : List SubmittedAnswer) : QuizAttemptResult :=
  let answers := quiz.questions.map (gradeQuestion subs)
  let total := (quiz.questions.map Question.points).sum
  let score := (quiz.questions.map (awarded subs)).sum
  let pct : ℚ := if total = 0 then 0 else (score : ℚ) / (total : ℚ) * 100
  ⟨answers, score, total, pct⟩

/-! ## Attemptor identity -/

/-- Modelled from the spec: the identity of an attemptor — an authenticated
user id OR a guest display name, never both at once (spec §3, QuizAttempt;
glossary).  Rendered as an opaque string at the core boundary (spec §6). -/
inductive Identity where
  | user (uid : String)
  | guest (name : String)
  deriving Repr, DecidableEq

/-- Whether an identity is an authenticated user id. -/
def Identity.isUser : Identity → Bool
  | .user _ => true
  | .guest _ => false

/-- Whether an identity is a guest display name. -/
def Identity.isGuest : Identity → Bool
  | .user _ => false
  | .guest _ => true

/-- Deterministic total-order key on identities, used as the final ranking
tie-break (spec §4.4: "final tie-break by attemptorIdentity for
determinism"). -/
def Identity.key : Identity → Lex (Nat × String)
  | .user uid => toLex (0, uid)
  | .guest name => toLex (1, name)

/-! ## LeaderboardAggregator -/

/-- Modelled from the spec: the per-quiz LeaderboardEntry, keyed by
(quizId, attemptorIdentity), holding the best attempt's score, percentage
and elapsed time, plus a running attempt count (spec §3). -/
structure LBEntry where
  quiz_id : Nat
  identity : Identity
  best_score : Nat
  best_percentage : ℚ
  best_time : Nat
  attempts_count : Nat
  deriving Repr, DecidableEq

/-- Modelled from the spec: the GlobalLeaderboardEntry, keyed by
attemptorIdentity — sum of best-per-quiz scores, count of distinct quizzes
completed, and average best-percentage (spec §3). -/
structure GlobalEntry where
  identity : Identity
  total_score : Nat
  quizzes_completed : Nat
  average_percentage : ℚ
  deriving Repr, DecidableEq

/-- Modelled from the spec: leaderboard state owned by the aggregator —
per-quiz entries and the derived global entries (spec §3). -/
structure LBState where
  entries : List LBEntry
  globals : List GlobalEntry
  deriving Repr, DecidableEq

/-- Modelled from the spec: the "is this attempt strictly better" ordering
rule — strictly greater score, or equal score with strictly lower elapsed
time (spec §4.4). -/
def isBetter (score : Nat) (time : Nat) (e : LBEntry) : Bool :=
  e.best_score < score || (score == e.best_score && time < e.best_time)

/-- Modelled from the spec: fold one new attempt into an existing
LeaderboardEntry — increment attempts unconditionally, replace the best
score/percentage/elapsedTime only if the new attempt is strictly better
(spec §4.4). -/
def applyAttempt (score : Nat) (pct : ℚ) (time : Nat) (e : LBEntry) : LBEntry :=
  if isBetter score time e then
    { e with best_score := score, best_percentage := pct, best_time := time,
             attempts_count := e.attempts_count + 1 }
  else
    { e with attempts_count := e.attempts_count + 1 }

/-- Whether a per-quiz entry has the given (quizId, identity) key. -/
def hasKey (qid : Nat) (ident : Identity) (e : LBEntry) : Bool :=
  e.quiz_id == qid && decide (e.identity = ident)

/-- Modelled from the spec: fetch-or-create step of the aggregator — update
the existing (quizId, identity) entry in place, or create a fresh entry whose
best fields are the new attempt and whose attempt count is 1 (spec §4.4). -/
def updateEntries (entries : List LBEntry) (qid : Nat) (ident : Identity)
    (score : Nat) (pct : ℚ) (time : Nat) : List LBEntry :=
  if entries.any (hasKey qid ident) then
    entries.map (fun e => if hasKey qid ident e then applyAttempt score pct time e else e)
  else
    entries ++ [⟨qid, ident, score, pct, time, 1⟩]

/-- Modelled from the spec: the value the GlobalLeaderboardEntry must equal —
derived entirely from the identity's per-quiz entries by summing best scores,
counting quizzes, and averaging best percentages (spec §3, §4.4). -/
def deriveGlobal (entries : List LBEntry) (ident : Identity) : GlobalEntry :=
  let mine := entries.filter (fun e => decide (e.identity = ident))
  { identity := ident
    total_score := (mine.map LBEntry.best_score).sum
    quizzes_completed := mine.length
    average_percentage :=
      if mine.length = 0 then 0
      else (mine.map LBEntry.best_percentage).sum / (mine.length : ℚ) }

/-- Modelled from the spec: LeaderboardAggregator.update — fold the attempt
into the per-quiz entry for (quizId, identity), then fully recompute that
identity's GlobalLeaderboardEntry from its per-quiz entries (spec §4.4). -/
def update (st : LBState) (qid : Nat) (ident : Identity)
    (score : Nat) (pct : ℚ) (time : Nat) : LBState :=
  let entries := updateEntries st.entries qid ident score pct time
  let globals := st.globals.filter (fun g => !decide (g.identity = ident))
      ++ [deriveGlobal entries ident]
  ⟨entries, globals⟩

/-! ## Per-quiz ranking -/

/-- Modelled from the spec: the ranking order of per-quiz entries — best
score descending, then best percentage descending, then best elapsed time
ascending, then attemptor identity (spec §4.4), expressed as a lexicographic
key into a linear order (score and percentage dualized for descending). -/
def rankKey (e : LBEntry) :
    Lex (OrderDual Nat × Lex (OrderDual ℚ × Lex (Nat × Lex (Nat × String)))) :=
  toLex (OrderDual.toDual e.best_score,
    toLex (OrderDual.toDual e.best_percentage,
      toLex (e.best_time, e.identity.key)))

/-- The "comes no later than" relation on per-quiz entries induced by
`rankKey`. -/
def lbLE (a b : LBEntry) : Prop := rankKey a ≤ rankKey b

instance : DecidableRel lbLE := fun a b => inferInstanceAs (Decidable (rankKey a ≤ rankKey b))

instance : IsTotal LBEntry lbLE := ⟨fun a b => le_total (rankKey a) (rankKey b)⟩

instance : IsTrans LBEntry lbLE := ⟨fun _ _ _ hab hbc => le_trans hab hbc⟩

/-- The per-quiz entries of one quiz. -/
def quizEntries (st : LBState) (qid : Nat) : List LBEntry :=
  st.entries.filter (fun e => e.quiz_id == qid)

/-- Modelled from the spec: `rankPerQuiz(quizId)` — the quiz's entries sorted
by the §4.4 ordering, each paired with its 1-based ordinal rank (spec §4.4). -/
def rankPerQuiz (st : LBState) (qid : Nat) : List (Nat × LBEntry) :=
  ((quizEntries st qid).insertionSort lbLE).enum.map (fun p => (p.1 + 1, p.2))

/-! ## AttemptRecorder -/

/-- Modelled from the spec: the recoverable error kinds of the core
(spec §7). -/
inductive QuizError where
  | invalidInput
  | notFound
  | concurrencyConflict
  deriving Repr, DecidableEq

/-- Modelled from the spec: a recorded, immutable QuizAttempt (spec §3). -/
structure QuizAttempt where
  id : Nat
  quiz_id : Nat
  identity : Identity
  score : Nat
  percentage : ℚ
  time_taken : Nat
  deriving Repr, DecidableEq

/-- Modelled from the spec: the full persistent state touched by one recorded
attempt — the attempt store plus the leaderboard state. -/
structure AppState where
  attempts : List QuizAttempt
  board : LBState
  deriving Repr, DecidableEq

/-- Modelled from the spec: AttemptRecorder.record — reject a negative
elapsed time with `InvalidInput`; otherwise persist a fresh immutable
QuizAttempt and synchronously run LeaderboardAggregator.update in the same
logical transaction, so either both effects land or neither does (spec §4.3,
§7). -/
def record (st : AppState) (ident : Identity) (qid : Nat)
    (res : QuizAttemptResult) (elapsedSeconds : Int) :
    Except QuizError (AppState × Nat) :=
  if elapsedSeconds < 0 then
    .error .invalidInput
  else
    let attemptId := st.attempts.length + 1
    let attempt : QuizAttempt :=
      ⟨attemptId, qid, ident, res.score, res.percentage, elapsedSeconds.toNat⟩
    let board := update st.board qid ident res.score res.percentage elapsedSeconds.toNat
    .ok (⟨st.attempts ++ [attempt], board⟩, attemptId)

/-! ## Frontend timer (QuizTake.js) -/

/-- The values the QuizTake `timeElapsed` state can reach, from the source:
`useState(0)` initializes it to 0, and the timer effect's
`setTimeElapsed((prev) => prev + 1)` is the only other write
(QuizTake.js lines 17 and 25-33).  Modelled over `Int` so that
non-negativity is a statement, not a typing artifact. -/
inductive TimerReach : Int → Prop
  | start : TimerReach 0
  | tick (t : Int) : TimerReach t → TimerReach (t + 1)

/-! ## Helper lemmas -/

/-- Summing `if p a then f a else 0` over a list is summing `f` over the
filtered list. -/
lemma sum_map_ite {α : Type} (l : List α) (p : α → Bool) (f : α → Nat) :
    (l.map (fun a => if p a then f a else 0)).sum = ((l.filter p).map f).sum := by
  induction l with
  | nil => rfl
  | cons a t ih =>
    by_cases h : p a
    · simp [List.filter_cons, h, ih]
    · simp [List.filter_cons, h, ih]

/-- A whitespace-only string trims to the empty string. -/
lemma trimWS_eq_nil_of_whitespace (s : List Char)
    (h : ∀ c ∈ s, c.isWhitespace = true) : trimWS s = [] := by
  have h1 : s.dropWhile isWS = [] := by
    rw [List.dropWhile_eq_nil_iff]
    intro c hc
    exact h c hc
  simp [trimWS, h1]

/-- Modelled from the spec: keep only the first submission referencing each
question id, in order of first appearance (spec §4.2: duplicates beyond the
first encountered are ignored). -/
def firstPerQuestion : List SubmittedAnswer → List SubmittedAnswer
  | [] => []
  | a :: rest =>
      a :: (firstPerQuestion rest).filter (fun b => !(b.question_id == a.question_id))

/-- Filtering away only elements the search predicate rejects does not change
`find?`. -/
lemma find?_filter_of_imp {α : Type} (l : List α) (p q : α → Bool)
    (h : ∀ x, p x = true → q x = true) : (l.filter q).find? p = l.find? p := by
  induction l with
  | nil => rfl
  | cons a t ih =>
    by_cases hq : q a
    · rw [List.filter_cons_of_pos hq]
      by_cases hp : p a
      · rw [List.find?_cons_of_pos _ hp, List.find?_cons_of_pos _ hp]
      · rw [List.find?_cons_of_neg _ hp, List.find?_cons_of_neg _ hp, ih]
    · rw [List.filter_cons_of_neg hq]
      have hp : ¬ p a = true := fun hpa => hq (h a hpa)
      rw [ih, List.find?_cons_of_neg _ hp]

/-- The first submission per question id is unchanged by dropping duplicate
submissions beyond the first. -/
lemma firstSub_firstPerQuestion (subs : List SubmittedAnswer) (qid : Nat) :
    firstSub (firstPerQuestion subs) qid = firstSub subs qid := by
  induction subs with
  | nil => rfl
  | cons a rest ih =>
    by_cases h : a.question_id == qid
    · unfold firstPerQuestion firstSub
      rw [List.find?_cons_of_pos (p := fun x : SubmittedAnswer => x.question_id == qid) _ h,
        List.find?_cons_of_pos (p := fun x : SubmittedAnswer => x.question_id == qid) _ h]
    · unfold firstPerQuestion firstSub
      rw [List.find?_cons_of_neg (p := fun x : SubmittedAnswer => x.question_id == qid) _ h,
        List.find?_cons_of_neg (p := fun x : SubmittedAnswer => x.question_id == qid) _ h]
      rw [find?_filter_of_imp]
      · exact ih
      · intro x hx
        simp only [beq_iff_eq] at hx h ⊢
        simp only [hx, Bool.not_eq_true']
        exact decide_eq_false (fun hx2 => h hx2.symm)

/-- Grading one question only looks at the first submission for its id. -/
lemma gradeQuestion_congr (q : Question) {subs subs2 : List SubmittedAnswer}
    (h : firstSub subs q.id = firstSub subs2 q.id) :
    gradeQuestion subs q = gradeQuestion subs2 q := by
  unfold gradeQuestion
  rw [h]

/-- Grading a quiz only looks at the first submission per question id. -/
lemma grade_congr (quiz : Quiz) {subs subs2 : List SubmittedAnswer}
    (h : ∀ qid, firstSub subs qid = firstSub subs2 qid) :
    grade quiz subs = grade quiz subs2 := by
  have h1 : quiz.questions.map (gradeQuestion subs) =
      quiz.questions.map (gradeQuestion subs2) :=
    List.map_congr_left (fun q _ => gradeQuestion_congr q (h q.id))
  have h2 : quiz.questions.map (awarded subs) =
      quiz.questions.map (awarded subs2) :=
    List.map_congr_left (fun q _ => by
      unfold awarded
      rw [gradeQuestion_congr q (h q.id)])
  simp only [grade, h1, h2]

/-- Every graded answer carries the id of the question it grades. -/
lemma gradeQuestion_question_id (subs : List SubmittedAnswer) (q : Question) :
    (gradeQuestion subs q).question_id = q.id := by
  unfold gradeQuestion
  cases firstSub subs q.id <;> rfl

/-- Modelled from the spec: the derived-view invariant on leaderboard state —
every stored GlobalLeaderboardEntry equals the value derived from the
per-quiz entries, every identity owning a per-quiz entry has a global entry,
and no identity has two global entries (spec §3: the global entry "must
always be re-derivable from the per-quiz entries"). -/
def Consistent (st : LBState) : Prop :=
  (∀ g ∈ st.globals, g = deriveGlobal st.entries g.identity) ∧
  (∀ ident : Identity, (∃ e ∈ st.entries, e.identity = ident) →
    ∃ g ∈ st.globals, g.identity = ident) ∧
  (st.globals.map GlobalEntry.identity).Nodup

/-- Folding an attempt into an entry does not change whose entry it is. -/
lemma applyAttempt_identity (score : Nat) (pct : ℚ) (time : Nat) (e : LBEntry) :
    (applyAttempt score pct time e).identity = e.identity := by
  by_cases h : isBetter score time e <;> simp [applyAttempt, h]

/-- The per-entry step of `updateEntries` does not change whose entry it is. -/
lemma updateStep_identity (qid : Nat) (ident : Identity) (s : Nat) (p : ℚ)
    (t : Nat) (e : LBEntry) :
    (if hasKey qid ident e then applyAttempt s p t e else e).identity = e.identity := by
  by_cases hk : hasKey qid ident e
  · rw [if_pos hk, applyAttempt_identity]
  · rw [if_neg hk]

/-- A keyed entry belongs to the keyed identity. -/
lemma hasKey_identity {qid : Nat} {ident : Identity} {e : LBEntry}
    (hk : hasKey qid ident e = true) : e.identity = ident := by
  simp only [hasKey, Bool.and_eq_true, decide_eq_true_eq] at hk
  exact hk.2

/-- Every entry of the updated per-quiz list either belongs to the updating
identity or descends from an old entry of the same identity. -/
lemma mem_updateEntries_identity {entries : List LBEntry} {qid : Nat}
    {ident : Identity} {s : Nat} {p : ℚ} {t : Nat} {e : LBEntry}
    (he : e ∈ updateEntries entries qid ident s p t) :
    e.identity = ident ∨ ∃ e0 ∈ entries, e0.identity = e.identity := by
  unfold updateEntries at he
  by_cases hany : entries.any (hasKey qid ident)
  · rw [if_pos hany] at he
    rcases List.mem_map.mp he with ⟨e0, he0, hfe⟩
    subst hfe
    by_cases hk : hasKey qid ident e0
    · left
      rw [if_pos hk, applyAttempt_identity]
      exact hasKey_identity hk
    · right
      exact ⟨e0, he0, by rw [if_neg hk]⟩
  · rw [if_neg hany] at he
    rcases List.mem_append.mp he with h1 | h1
    · right
      exact ⟨e, h1, rfl⟩
    · left
      simp only [List.mem_singleton] at h1
      subst h1
      rfl

/-- Updating the per-quiz entry of one identity leaves every other identity's
slice of the per-quiz entries untouched. -/
lemma updateEntries_filter_ne (entries : List LBEntry) (qid : Nat)
    (ident j : Identity) (s : Nat) (p : ℚ) (t : Nat) (hne : j ≠ ident) :
    (updateEntries entries qid ident s p t).filter
        (fun e => decide (e.identity = j)) =
      entries.filter (fun e => decide (e.identity = j)) := by
  unfold updateEntries
  by_cases hany : entries.any (hasKey qid ident)
  · rw [if_pos hany]
    clear hany
    induction entries with
    | nil => rfl
    | cons a rest ih =>
      simp only [List.map_cons, List.filter_cons, updateStep_identity]
      by_cases hj : a.identity = j
      · have hk : hasKey qid ident a = false := by
          simp only [hasKey, Bool.and_eq_false_iff]
          right
          simp only [decide_eq_false_iff_not]
          rw [hj]
          exact hne
        rw [if_neg (by simp [hk] : ¬ hasKey qid ident a = true)]
        rw [if_pos (by simp [hj] : decide (a.identity = j) = true)]
        rw [if_pos (by simp [hj] : decide (a.identity = j) = true), ih]
      · rw [if_neg (by simp [hj] : ¬ decide (a.identity = j) = true)]
        rw [if_neg (by simp [hj] : ¬ decide (a.identity = j) = true)]
        exact ih
  · rw [if_neg hany, List.filter_append]
    have h1 : ([⟨qid, ident, s, p, t, 1⟩] : List LBEntry).filter
        (fun e => decide (e.identity = j)) = [] := by
      simp [Ne.symm hne]
    rw [h1, List.append_nil]

/-- Deriving a global entry only reads the identity's slice of the per-quiz
entries. -/
lemma deriveGlobal_congr {l1 l2 : List LBEntry} (j : Identity)
    (h : l1.filter (fun e => decide (e.identity = j)) =
      l2.filter (fun e => decide (e.identity = j))) :
    deriveGlobal l1 j = deriveGlobal l2 j := by
  unfold deriveGlobal
  rw [h]

/-- The derived global entry is keyed by the identity it was derived for. -/
lemma deriveGlobal_identity (l : List LBEntry) (j : Identity) :
    (deriveGlobal l j).identity = j := rfl

/-! ## Claim theorems -/

/-- C1: for every quiz and submission list, `grade` yields `total_points`
equal to the sum of all question point values (independent of which
questions were answered), `score` equal to the sum of the point values of
exactly the correctly answered questions, a `GradedAnswer` with
`is_correct = false` contributing 0 points for every question with no
submission, and a percentage equal to `score / total_points * 100` when
`total_points > 0` and exactly 0 when `total_points = 0`. -/
theorem grade_scoring_spec (quiz : Quiz) (subs : List SubmittedAnswer) :
    (grade quiz subs).total_points = (quiz.questions.map Question.points).sum ∧
    (grade quiz subs).score =
      ((quiz.questions.filter (fun q => (gradeQuestion subs q).is_correct)).map
        Question.points).sum ∧
    (∀ q ∈ quiz.questions, firstSub subs q.id = none →
      (gradeQuestion subs q).is_correct = false ∧ awarded subs q = 0 ∧
      (⟨q.id, false, none, none⟩ : GradedAnswer) ∈ (grade quiz subs).answers) ∧
    ((grade quiz subs).total_points ≠ 0 →
      (grade quiz subs).percentage =
        ((grade quiz subs).score : ℚ) / ((grade quiz subs).total_points : ℚ) * 100) ∧
    ((grade quiz subs).total_points = 0 → (grade quiz subs).percentage = 0) := by
  refine ⟨rfl, ?_, ?_, ?_, ?_⟩
  · have h := sum_map_ite quiz.questions
      (fun q => (gradeQuestion subs q).is_correct) Question.points
    simpa [grade, awarded] using h
  · intro q hq hnone
    refine ⟨by simp [gradeQuestion, hnone], by simp [awarded, gradeQuestion, hnone], ?_⟩
    simp only [grade]
    exact List.mem_map.mpr ⟨q, hq, by simp [gradeQuestion, hnone]⟩
  · intro h
    simp only [grade] at h ⊢
    rw [if_neg h]
  · intro h
    simp only [grade] at h ⊢
    rw [if_pos h]

/-- C2: FILL_BLANK matching accepts exactly the submissions whose trimmed
(and, when case-insensitive, case-folded) text equals an accepted
alternative (folded the same way), with the extra guard that an empty or
whitespace-only submission is never correct, even against an empty accepted
alternative. -/
theorem fillBlank_matching_spec (alternatives : List (List Char)) (cs : Bool)
    (sub : List Char) :
    (fillBlankMatches alternatives cs sub = true ↔
      (trimWS sub ≠ [] ∧
        ∃ a ∈ alternatives, normAlt cs (trimWS sub) = normAlt cs a)) ∧
    ((∀ c ∈ sub, c.isWhitespace = true) →
      fillBlankMatches alternatives cs sub = false) := by
  constructor
  · simp only [fillBlankMatches, Bool.and_eq_true, Bool.not_eq_true',
      List.isEmpty_eq_false_iff_exists_mem]
    constructor
    · rintro ⟨h1, h2⟩
      refine ⟨?_, ?_⟩
      · intro hnil
        rcases h1 with ⟨x, hx⟩
        simp [hnil] at hx
      · rcases List.mem_map.mp (List.elem_iff.mp h2) with ⟨a, ha, hae⟩
        exact ⟨a, ha, hae.symm⟩
    · rintro ⟨h1, a, ha, hae⟩
      refine ⟨?_, ?_⟩
      · rcases List.exists_mem_of_ne_nil _ h1 with ⟨x, hx⟩
        exact ⟨x, hx⟩
      · exact List.elem_iff.mpr (List.mem_map.mpr ⟨a, ha, hae.symm⟩)
  · intro h
    have ht : trimWS sub = [] := trimWS_eq_nil_of_whitespace sub h
    simp [fillBlankMatches, ht]

/-- C9: the attemptor identity of every recorded QuizAttempt is exactly one
of an authenticated user id or a guest display name, never both at once. -/
theorem attempt_identity_spec (a : QuizAttempt) :
    (a.identity.isUser = true ∧ a.identity.isGuest = false) ∨
    (a.identity.isGuest = true ∧ a.identity.isUser = false) := by
  cases a.identity <;> simp [Identity.isUser, Identity.isGuest]

/-- C3: for a MULTIPLE_CHOICE question whose choice list has exactly one
choice with `is_correct = true`, a submitted choice id matches iff it is that
choice's id; a missing submission is never correct; an id belonging to no
choice of the question is never correct. -/
theorem mc_matching_spec (choices : List Choice) (c : Choice)
    (hc : c ∈ choices) (hcorr : c.is_correct = true)
    (huniq : ∀ c2 ∈ choices, c2.is_correct = true → c2 = c) :
    (∀ cid : Nat, mcMatches choices (some cid) = true ↔ cid = c.id) ∧
    mcMatches choices none = false ∧
    (∀ cid : Nat, (∀ ch ∈ choices, ch.id ≠ cid) →
      mcMatches choices (some cid) = false) := by
  refine ⟨?_, rfl, ?_⟩
  · intro cid
    simp only [mcMatches, List.any_eq_true, Bool.and_eq_true, beq_iff_eq]
    constructor
    · rintro ⟨ch, hch, hid, hcor⟩
      rw [huniq ch hch hcor] at hid
      exact hid.symm
    · rintro rfl
      exact ⟨c, hc, rfl, hcorr⟩
  · intro cid h
    simp only [mcMatches]
    rw [List.any_eq_false]
    intro ch hch
    simp only [Bool.and_eq_true, beq_iff_eq, not_and]
    intro hid
    exact absurd hid (h ch hch)

/-- C3 witness: a concrete two-choice question with the second choice
correct. -/
theorem mc_matching_spec_witness :
    (∀ cid : Nat,
      mcMatches [⟨1, [], false⟩, ⟨2, [], true⟩] (some cid) = true ↔
        cid = (⟨2, [], true⟩ : Choice).id) ∧
    mcMatches [⟨1, [], false⟩, ⟨2, [], true⟩] none = false ∧
    (∀ cid : Nat,
      (∀ ch ∈ [(⟨1, [], false⟩ : Choice), ⟨2, [], true⟩], ch.id ≠ cid) →
      mcMatches [⟨1, [], false⟩, ⟨2, [], true⟩] (some cid) = false) :=
  mc_matching_spec [⟨1, [], false⟩, ⟨2, [], true⟩] ⟨2, [], true⟩
    (by decide) (by decide) (by decide)

/-- C7: graded answers appear in quiz question order regardless of
submission order; duplicate submissions for one question beyond the first
encountered are ignored without error; and grading depends on the
submissions only through the first submission per question, so any
reordering preserving first-per-question yields the identical result. -/
theorem grade_ordering_dedup_spec (quiz : Quiz) (subs subs2 : List SubmittedAnswer) :
    ((grade quiz subs).answers.map GradedAnswer.question_id =
      quiz.questions.map Question.id) ∧
    grade quiz subs = grade quiz (firstPerQuestion subs) ∧
    ((∀ qid, firstSub subs qid = firstSub subs2 qid) →
      grade quiz subs = grade quiz subs2) := by
  refine ⟨?_, ?_, fun h => grade_congr quiz h⟩
  · simp only [grade, List.map_map]
    exact List.map_congr_left (fun q _ => gradeQuestion_question_id subs q)
  · exact grade_congr quiz (fun qid => (firstSub_firstPerQuestion subs qid).symm)

/-- C4: updating an existing LeaderboardEntry increments its attempt count
unconditionally, replaces its best score/percentage/elapsed time iff the new
score is strictly greater or ties with a strictly lower elapsed time, leaves
the best values unchanged otherwise (so the stored best score never
decreases), and the updated entry is what `update` stores. -/
theorem lb_best_update_spec (st : LBState) (qid : Nat) (ident : Identity)
    (score : Nat) (pct : ℚ) (time : Nat) (e : LBEntry)
    (he : e ∈ st.entries) (hq : e.quiz_id = qid) (hi : e.identity = ident) :
    (applyAttempt score pct time e).attempts_count = e.attempts_count + 1 ∧
    ((e.best_score < score ∨ (score = e.best_score ∧ time < e.best_time)) →
      applyAttempt score pct time e =
        { e with best_score := score, best_percentage := pct, best_time := time,
                 attempts_count := e.attempts_count + 1 }) ∧
    (¬(e.best_score < score ∨ (score = e.best_score ∧ time < e.best_time)) →
      applyAttempt score pct time e =
        { e with attempts_count := e.attempts_count + 1 }) ∧
    e.best_score ≤ (applyAttempt score pct time e).best_score ∧
    applyAttempt score pct time e ∈ (update st qid ident score pct time).entries := by
  have hbetter : isBetter score time e = true ↔
      (e.best_score < score ∨ (score = e.best_score ∧ time < e.best_time)) := by
    simp [isBetter]
  have hkey : hasKey qid ident e = true := by
    simp [hasKey, hq, hi]
  refine ⟨?_, ?_, ?_, ?_, ?_⟩
  · by_cases h : isBetter score time e <;> simp [applyAttempt, h]
  · intro h
    rw [applyAttempt, if_pos (hbetter.mpr h)]
  · intro h
    rw [applyAttempt, if_neg (fun hb => h (hbetter.mp hb))]
  · by_cases h : isBetter score time e
    · rcases hbetter.mp h with h2 | h2
      · simp [applyAttempt, h]
        exact le_of_lt h2
      · rw [applyAttempt, if_pos h]
        exact le_of_eq h2.1.symm
    · simp [applyAttempt, h]
  · have hany : st.entries.any (hasKey qid ident) = true :=
      List.any_eq_true.mpr ⟨e, he, hkey⟩
    simp only [update, updateEntries, hany, if_pos]
    exact List.mem_map.mpr ⟨e, he, by rw [if_pos hkey]⟩

/-- C4 witness: the spec's tie-break example — an existing best with score 5
and elapsed 120 s, improved by an equal-score attempt at 90 s. -/
theorem lb_best_update_spec_witness :
    (applyAttempt 5 50 90 ⟨1, .guest "g", 5, 50, 120, 1⟩).attempts_count =
      (⟨1, .guest "g", 5, 50, 120, 1⟩ : LBEntry).attempts_count + 1 ∧
    (((⟨1, .guest "g", 5, 50, 120, 1⟩ : LBEntry).best_score < 5 ∨
        (5 = (⟨1, .guest "g", 5, 50, 120, 1⟩ : LBEntry).best_score ∧
          90 < (⟨1, .guest "g", 5, 50, 120, 1⟩ : LBEntry).best_time)) →
      applyAttempt 5 50 90 ⟨1, .guest "g", 5, 50, 120, 1⟩ =
        ⟨1, .guest "g", 5, 50, 90, 2⟩) ∧
    (¬((⟨1, .guest "g", 5, 50, 120, 1⟩ : LBEntry).best_score < 5 ∨
        (5 = (⟨1, .guest "g", 5, 50, 120, 1⟩ : LBEntry).best_score ∧
          90 < (⟨1, .guest "g", 5, 50, 120, 1⟩ : LBEntry).best_time)) →
      applyAttempt 5 50 90 ⟨1, .guest "g", 5, 50, 120, 1⟩ =
        ⟨1, .guest "g", 5, 50, 120, 2⟩) ∧
    (⟨1, .guest "g", 5, 50, 120, 1⟩ : LBEntry).best_score ≤
      (applyAttempt 5 50 90 ⟨1, .guest "g", 5, 50, 120, 1⟩).best_score ∧
    applyAttempt 5 50 90 ⟨1, .guest "g", 5, 50, 120, 1⟩ ∈
      (update ⟨[⟨1, .guest "g", 5, 50, 120, 1⟩], []⟩ 1 (.guest "g") 5 50 90).entries :=
  lb_best_update_spec ⟨[⟨1, .guest "g", 5, 50, 120, 1⟩], []⟩ 1 (.guest "g")
    5 50 90 ⟨1, .guest "g", 5, 50, 120, 1⟩ (by simp) rfl rfl

/-- C8: a negative elapsed time makes `record` fail with `InvalidInput`, and
on that failure no new state is produced — no QuizAttempt is persisted and no
leaderboard entry is touched, since the error carries no successor state. -/
theorem record_invalid_input_spec (st : AppState) (ident : Identity) (qid : Nat)
    (res : QuizAttemptResult) (elapsedSeconds : Int) (h : elapsedSeconds < 0) :
    record st ident qid res elapsedSeconds = .error .invalidInput ∧
    ∀ (st2 : AppState) (aid : Nat),
      record st ident qid res elapsedSeconds ≠ .ok (st2, aid) := by
  have h1 : record st ident qid res elapsedSeconds = .error .invalidInput := by
    simp [record, h]
  exact ⟨h1, fun st2 aid hok => by rw [h1] at hok; exact Except.noConfusion hok⟩

/-- C8 witness: recording an attempt with elapsed time -1 s on an empty
state. -/
theorem record_invalid_input_spec_witness :
    record ⟨[], ⟨[], []⟩⟩ (.guest "g") 1 ⟨[], 0, 0, 0⟩ (-1) =
      .error .invalidInput ∧
    ∀ (st2 : AppState) (aid : Nat),
      record ⟨[], ⟨[], []⟩⟩ (.guest "g") 1 ⟨[], 0, 0, 0⟩ (-1) ≠ .ok (st2, aid) :=
  record_invalid_input_spec ⟨[], ⟨[], []⟩⟩ (.guest "g") 1 ⟨[], 0, 0, 0⟩ (-1)
    (by decide)

/-- C10: every value the QuizTake timer can reach is non-negative — it
starts at 0 and only ever increments by 1 per tick — so a submission built
from it never triggers the recorder's negative-elapsed-time InvalidInput
branch. -/
theorem timer_nonnegative_spec (t : Int) (h : TimerReach t) :
    0 ≤ t ∧ ∀ (st : AppState) (ident : Identity) (qid : Nat)
      (res : QuizAttemptResult),
      record st ident qid res t ≠ .error .invalidInput := by
  have hnn : 0 ≤ t := by
    induction h with
    | start => exact le_refl 0
    | tick t2 _ ih => omega
  refine ⟨hnn, ?_⟩
  intro st ident qid res hcontra
  have hneg : ¬ t < 0 := not_lt.mpr hnn
  simp [record, hneg] at hcontra

/-- C5: LeaderboardAggregator.update keeps the global leaderboard a
materialized view of the per-quiz entries — whenever the state is consistent
(every GlobalLeaderboardEntry equals the value derived from that identity's
per-quiz entries: total score the sum of per-quiz best scores, quizzes
completed the count of per-quiz entries, average percentage their average),
it is still consistent after any update. -/
theorem global_consistency_spec (st : LBState) (qid : Nat) (ident : Identity)
    (score : Nat) (pct : ℚ) (time : Nat) (h : Consistent st) :
    Consistent (update st qid ident score pct time) := by
  obtain ⟨hder, hcov, hnd⟩ := h
  have hres : update st qid ident score pct time =
      ⟨updateEntries st.entries qid ident score pct time,
        st.globals.filter (fun g => !decide (g.identity = ident)) ++
          [deriveGlobal (updateEntries st.entries qid ident score pct time) ident]⟩ :=
    rfl
  rw [hres]
  refine ⟨?_, ?_, ?_⟩
  · intro g hg
    rcases List.mem_append.mp hg with hg1 | hg1
    · rcases List.mem_filter.mp hg1 with ⟨hgs, hgne⟩
      have hne : g.identity ≠ ident := by simpa using hgne
      rw [hder g hgs]
      exact deriveGlobal_congr g.identity
        (updateEntries_filter_ne st.entries qid ident g.identity score pct time hne).symm
    · simp only [List.mem_singleton] at hg1
      subst hg1
      rw [deriveGlobal_identity]
  · intro j hj
    rcases hj with ⟨e, he, hej⟩
    by_cases hji : j = ident
    · subst hji
      exact ⟨deriveGlobal (updateEntries st.entries qid j score pct time) j,
        List.mem_append_right _ (List.mem_singleton.mpr rfl), rfl⟩
    · have hold : ∃ e0 ∈ st.entries, e0.identity = j := by
        rcases mem_updateEntries_identity he with h1 | ⟨e0, he0, h2⟩
        · exact absurd (hej ▸ h1) hji
        · exact ⟨e0, he0, h2.trans hej⟩
      rcases hcov j hold with ⟨g, hgs, hgj⟩
      refine ⟨g, List.mem_append_left _ (List.mem_filter.mpr ⟨hgs, ?_⟩), hgj⟩
      simp [hgj, hji]
  · rw [List.map_append, List.nodup_append]
    refine ⟨?_, by simp, ?_⟩
    · exact ((List.filter_sublist st.globals).map GlobalEntry.identity).nodup hnd
    · intro x hx hx2
      simp only [List.map_cons, List.map_nil, List.mem_singleton,
        deriveGlobal_identity] at hx2
      subst hx2
      rcases List.mem_map.mp hx with ⟨g, hgf, hgid⟩
      rcases List.mem_filter.mp hgf with ⟨_, hgne⟩
      rw [hgid] at hgne
      simp at hgne

/-- C5 witness: one update applied to the empty (vacuously consistent)
leaderboard state. -/
theorem global_consistency_spec_witness :
    Consistent (update ⟨[], []⟩ 1 (.guest "g") 5 50 60) :=
  global_consistency_spec ⟨[], []⟩ 1 (.guest "g") 5 50 60
    (by simp [Consistent])

/-- C6: `rankPerQuiz` returns exactly the quiz's entries (as a permutation),
sorted by the §4.4 ordering — best score descending, then best percentage
descending, then best elapsed time ascending, then attemptor identity — with
each entry's rank equal to its 1-based position, no two positions sharing a
rank, and identical output on repeated application to unchanged state. -/
theorem rank_per_quiz_spec (st : LBState) (qid : Nat) :
    ((rankPerQuiz st qid).map Prod.snd).Perm (quizEntries st qid) ∧
    ((rankPerQuiz st qid).map Prod.snd).Sorted lbLE ∧
    (∀ (i : Nat) (h : i < (rankPerQuiz st qid).length),
      ((rankPerQuiz st qid).get ⟨i, h⟩).1 = i + 1) ∧
    ((rankPerQuiz st qid).map Prod.fst).Nodup ∧
    rankPerQuiz st qid = rankPerQuiz st qid := by
  have hsnd : (rankPerQuiz st qid).map Prod.snd =
      (quizEntries st qid).insertionSort lbLE := by
    simp [rankPerQuiz, List.map_map, Function.comp_def]
  have hfst : (rankPerQuiz st qid).map Prod.fst =
      (List.range ((quizEntries st qid).insertionSort lbLE).length).map
        (fun i => i + 1) := by
    simp only [rankPerQuiz, List.map_map, Function.comp_def]
    rw [show (fun p : Nat × LBEntry => p.1 + 1) = (fun i => i + 1) ∘ Prod.fst from rfl,
      ← List.map_map, List.enum_map_fst]
  refine ⟨?_, ?_, ?_, ?_, rfl⟩
  · rw [hsnd]
    exact List.perm_insertionSort lbLE (quizEntries st qid)
  · rw [hsnd]
    exact List.sorted_insertionSort lbLE (quizEntries st qid)
  · intro i h
    have h2 : i < ((quizEntries st qid).insertionSort lbLE).enum.length := by
      simpa [rankPerQuiz] using h
    simp [rankPerQuiz, List.get_eq_getElem, List.getElem_map, List.getElem_enum]
  · rw [hfst]
    exact (List.nodup_range _).map (fun a b => by omega)

/-- C10 witness: the timer value after two ticks. -/
theorem timer_nonnegative_spec_witness :
    0 ≤ (2 : Int) ∧ ∀ (st : AppState) (ident : Identity) (qid : Nat)
      (res : QuizAttemptResult),
      record st ident qid res 2 ≠ .error .invalidInput := by
  exact timer_nonnegative_spec 2
    (by simpa using TimerReach.tick 1 (by simpa using TimerReach.tick 0 TimerReach.start))

end QuizApp
